import Mathlib

/-!
Verification model of the spec-to-descriptor translation engine of
cluster-api-provider-gcp (cloud/scope/machine.go).

Go strings are modelled as `List Char` (`Str`); the Go standard library
helpers used by the source (`strings.Split`, `strings.Contains`,
`strings.Count`, `strings.HasPrefix`, `strings.TrimPrefix`,
`strings.HasSuffix`, `strings.ToUpper`, `path.Join`, `path.Clean`) are
embedded below, followed by the data model and the functions of
`MachineScope` that the claims are about.
-/

/-- Go strings are modelled as lists of characters. -/
abbrev Str := List Char

/-- Convert a Lean string literal to the `Str` model. -/
def gs (s : String) : Str := s.toList

/-- Model of Go `strings.Split(s, sep)` for a one-character separator:
always returns at least one piece; a separator at the end yields a
trailing empty piece. -/
def splitChar (c : Char) : Str → List Str
  | [] => [[]]
  | x :: xs =>
    let r := splitChar c xs
    if x = c then [] :: r else (x :: r.headI) :: r.tail

/-- Model of Go `strings.HasPrefix`. -/
def hasPrefixStr : Str → Str → Bool
  | [], _ => true
  | _ :: _, [] => false
  | p :: ps, s :: ss => p = s && hasPrefixStr ps ss

/-- Model of Go `strings.TrimPrefix`. -/
def trimPrefixStr (p s : Str) : Str :=
  if hasPrefixStr p s then s.drop p.length else s

/-- Model of Go `strings.HasSuffix`. -/
def hasSuffixStr (suf s : Str) : Bool := List.isSuffixOf suf s

/-- Model of Go `strings.Contains` (non-empty or empty pattern). -/
def containsSub (pat : Str) : Str → Bool
  | [] => pat.isEmpty
  | x :: xs => hasPrefixStr pat (x :: xs) || containsSub pat xs

/-- Scanning loop of Go `strings.Count`: counts non-overlapping
occurrences, skipping past each match (`skip` positions still to skip
after the previous match). -/
def countAux (pat : Str) (skip : Nat) : Str → Nat
  | [] => 0
  | x :: xs =>
    match skip with
    | n + 1 => countAux pat n xs
    | 0 =>
      if hasPrefixStr pat (x :: xs) then 1 + countAux pat (pat.length - 1) xs
      else countAux pat 0 xs

/-- Model of Go `strings.Count` (for an empty pattern Go returns the
rune count plus one). -/
def countSub (pat s : Str) : Nat :=
  if pat = [] then s.length + 1 else countAux pat 0 s

/-- Model of Go `strings.ToUpper` (ASCII-relevant part). -/
def toUpperStr (s : Str) : Str := s.map Char.toUpper

/-- `sepConcat sep [a, b, c] = sep ++ a ++ sep ++ b ++ sep ++ c`. -/
def sepConcat (sep : Str) : List Str → Str
  | [] => []
  | x :: rest => sep ++ x ++ sepConcat sep rest

/-- Join a list of strings with a separator between consecutive elements. -/
def strIntercalate (sep : Str) : List Str → Str
  | [] => []
  | x :: rest => x ++ sepConcat sep rest

/-- The concatenation step of Go `path.Join`: leading empty elements are
skipped, then every further element is preceded by a slash. -/
def joinNonEmpty : List Str → Str
  | [] => []
  | e :: rest => if e = [] then joinNonEmpty rest else e ++ sepConcat ['/'] rest

/-- Segment processing of Go `path.Clean`: drops empty and `.` segments,
resolves `..` against the accumulated (reversed) prefix. -/
def cleanSegs (rooted : Bool) : List Str → List Str → List Str
  | acc, [] => acc.reverse
  | acc, s :: rest =>
    if s = [] ∨ s = ['.'] then cleanSegs rooted acc rest
    else if s = ['.', '.'] then
      match acc with
      | [] => if rooted then cleanSegs rooted [] rest else cleanSegs rooted [['.', '.']] rest
      | t :: acc2 =>
        if t = ['.', '.'] then cleanSegs rooted (s :: t :: acc2) rest
        else cleanSegs rooted acc2 rest
    else cleanSegs rooted (s :: acc) rest

/-- Model of Go `path.Clean`. -/
def pathClean (s : Str) : Str :=
  if s = [] then ['.']
  else
    let rooted := s.headI = '/'
    let segs := cleanSegs rooted [] (splitChar '/' s)
    if segs = [] then (if rooted then ['/'] else ['.'])
    else if rooted then '/' :: strIntercalate ['/'] segs
    else strIntercalate ['/'] segs

/-- Model of Go `path.Join`: concatenate with slashes, then `Clean`;
all-empty input yields the empty string. -/
def pathJoin (elems : List Str) : Str :=
  let buf := joinNonEmpty elems
  if buf = [] then [] else pathClean buf

/-- A string that `path.Clean` treats as an ordinary path segment:
non-empty, not `.` or `..`, and slash-free. -/
def CleanSeg (x : Str) : Prop :=
  x ≠ [] ∧ x ≠ ['.'] ∧ x ≠ ['.', '.'] ∧ '/' ∉ x

instance : DecidablePred CleanSeg := fun x => by
  unfold CleanSeg; infer_instance

example : pathJoin [gs "zones", gs "us-central1-a", gs "diskTypes", gs "pd-ssd"]
    = gs "zones/us-central1-a/diskTypes/pd-ssd" := by decide

example : pathJoin [gs "a", gs "", gs "b"] = gs "a/b" := by decide

example : pathClean (gs "a//b/./c/../d") = gs "a/b/d" := by decide

example : splitChar ',' (gs "a,b,,c") = [gs "a", gs "b", gs "", gs "c"] := by decide

example : countSub (gs ",aliases=") (gs "x,aliases=a,aliases=b") = 2 := by decide

/-! ## Data model

Structures mirroring the fields that `cloud/scope/machine.go` reads and
the `compute` API fields it writes. -/

/-- `compute.AliasIpRange`. -/
structure AliasIpRangeM where
  subnetworkRangeName : Str
  ipCidrRange : Str
deriving DecidableEq

/-- `compute.AccessConfig` (only the fields the source sets). -/
structure AccessConfigM where
  type : Str
  name : Str
deriving DecidableEq

/-- `compute.NetworkInterface` (only the fields the source sets). -/
structure NetworkInterfaceM where
  network : Str
  subnetwork : Str
  accessConfigs : List AccessConfigM
  aliasIpRanges : List AliasIpRangeM
deriving DecidableEq

/-- `compute.AttachedDiskInitializeParams`. -/
structure InitializeParamsM where
  diskSizeGb : Int
  diskType : Str
  sourceImage : Str
deriving DecidableEq

/-- `compute.AttachedDisk` (only the fields the source sets; `type`
empty means the provider default PERSISTENT, `interface` empty means the
default SCSI). -/
structure AttachedDiskM where
  autoDelete : Bool
  boot : Bool
  type : Str
  interface : Str
  initializeParams : InitializeParamsM
deriving DecidableEq

/-- `compute.ServiceAccount`. -/
structure ServiceAccountM where
  email : Str
  scopes : List Str
deriving DecidableEq

/-- One `compute.MetadataItems` entry. -/
structure MetadataItemM where
  key : Str
  value : Str
deriving DecidableEq

/-- `compute.Scheduling` (only the fields the source sets). -/
structure SchedulingM where
  preemptible : Bool
  onHostMaintenance : Str
deriving DecidableEq

/-- `compute.ShieldedInstanceConfig`. -/
structure ShieldedInstanceConfigM where
  enableSecureBoot : Bool
  enableVtpm : Bool
  enableIntegrityMonitoring : Bool
deriving DecidableEq

/-- `compute.ConfidentialInstanceConfig`. -/
structure ConfidentialInstanceConfigM where
  enableConfidentialCompute : Bool
deriving DecidableEq

/-- `compute.Instance` (only the fields the source sets); the output
instance descriptor. -/
structure InstanceM where
  name : Str
  zone : Str
  machineType : Str
  tags : List Str
  labels : List (Str × Str)
  scheduling : SchedulingM
  canIpForward : Bool
  shieldedInstanceConfig : Option ShieldedInstanceConfigM
  confidentialInstanceConfig : Option ConfidentialInstanceConfigM
  disks : List AttachedDiskM
  metadata : List MetadataItemM
  serviceAccounts : List ServiceAccountM
  networkInterfaces : List NetworkInterfaceM
deriving DecidableEq

/-- One entry of `GCPMachineSpec.AdditionalDisks` (`infrav1.AttachedDiskSpec`);
the source dereferences `DeviceType` unconditionally, so it is modelled as a
plain field. -/
structure AttachedDiskSpecM where
  deviceType : Str
  size : Option Int
deriving DecidableEq

/-- `infrav1.GCPMachineSpec.ShieldedInstanceConfig`; the three policy
fields are string-valued enums. -/
structure ShieldedCfgM where
  secureBoot : Str
  virtualizedTrustedPlatformModule : Str
  integrityMonitoring : Str
deriving DecidableEq

/-- `infrav1.ServiceAccount` (email and scopes). -/
structure ServiceAccountSpecM where
  email : Str
  scopes : List Str
deriving DecidableEq

/-- The fields of `infrav1.GCPMachineSpec` that `machine.go` reads. -/
structure GCPMachineSpecM where
  instanceType : Str
  subnet : Option Str
  image : Option Str
  imageFamily : Option Str
  rootDeviceType : Option Str
  rootDeviceSize : Int
  additionalDisks : List AttachedDiskSpecM
  publicIP : Option Bool
  ipForwarding : Option Str
  onHostMaintenance : Option Str
  shieldedInstanceConfig : Option ShieldedCfgM
  confidentialCompute : Option Str
  serviceAccount : Option ServiceAccountSpecM
  additionalLabels : List (Str × Str)
  additionalMetadata : List MetadataItemM
  additionalNetworkTags : List Str
  preemptible : Bool
deriving DecidableEq

/-- `infrav1.GCPMachine`: name plus spec. -/
structure GCPMachineM where
  name : Str
  spec : GCPMachineSpecM
deriving DecidableEq

/-- The fields of the CAPI `clusterv1.Machine` that `machine.go` reads.
`isControlPlane` models `util.IsControlPlaneMachine` (a label check on
the Machine object, outside this repository). -/
structure MachineM where
  failureDomain : Option Str
  version : Option Str
  isControlPlane : Bool
deriving DecidableEq

/-- The `cloud.ClusterGetter` accessors that `machine.go` uses.
`failureDomains` lists the keys of the failure-domain map in the
(arbitrary) iteration order Go hands them out. -/
structure ClusterGetterM where
  project : Str
  region : Str
  networkName : Str
  name : Str
  failureDomains : List Str
  additionalLabels : List (Str × Str)
deriving DecidableEq

/-- `scope.MachineScope`: the receiver of every function under
verification. -/
structure MachineScopeM where
  clusterGetter : ClusterGetterM
  machine : MachineM
  gcpMachine : GCPMachineM
deriving DecidableEq

/-! ## Constants

String-enum constants referenced by `machine.go` but declared in the
`api/v1beta1` types package, which is not under `src/`. -/

/-- Modelled from the spec: the local-ephemeral (local SSD) disk type
token `infrav1.LocalSsdDiskType` from the API types package (not in
src/). -/
def LocalSsdDiskType : Str := gs "local-ssd"

/-- Modelled from the spec: the fixed default root disk type
`infrav1.PdStandardDiskType` (not in src/). -/
def PdStandardDiskType : Str := gs "pd-standard"

/-- Modelled from the spec: `infrav1.IPForwardingDisabled` (not in src/). -/
def IPForwardingDisabled : Str := gs "Disabled"

/-- Modelled from the spec: `infrav1.HostMaintenancePolicyMigrate`, the
abstract enumerated host-maintenance value whose provider token is
MIGRATE (not in src/). -/
def HostMaintenancePolicyMigrate : Str := gs "Migrate"

/-- Modelled from the spec: `infrav1.HostMaintenancePolicyTerminate`,
the abstract enumerated host-maintenance value whose provider token is
TERMINATE (not in src/). -/
def HostMaintenancePolicyTerminate : Str := gs "Terminate"

/-- Modelled from the spec: `infrav1.SecureBootPolicyEnabled` (not in src/). -/
def SecureBootPolicyEnabled : Str := gs "Enabled"

/-- Modelled from the spec: `infrav1.VirtualizedTrustedPlatformModulePolicyDisabled`
(not in src/). -/
def VirtualizedTrustedPlatformModulePolicyDisabled : Str := gs "Disabled"

/-- Modelled from the spec: `infrav1.IntegrityMonitoringPolicyDisabled`
(not in src/). -/
def IntegrityMonitoringPolicyDisabled : Str := gs "Disabled"

/-- Modelled from the spec: `infrav1.ConfidentialComputePolicyEnabled`
(not in src/). -/
def ConfidentialComputePolicyEnabled : Str := gs "Enabled"

/-- Modelled from the spec: `compute.CloudPlatformScope`, the
platform-wide OAuth scope used for the default service account (Google
API client constant, not in src/). -/
def CloudPlatformScope : Str := gs "https://www.googleapis.com/auth/cloud-platform"

/-- The literal alias-block marker `,aliases=` from
`getInstanceAliasIpRanges`. -/
def aliasMarker : Str := gs ",aliases="

/-- The keyword `aliases=` the per-piece loop matches with
`strings.HasPrefix` and strips with `strings.TrimPrefix`. -/
def aliasKeyword : Str := gs "aliases="

/-! ## Source functions of `cloud/scope/machine.go` -/

/-- `MachineScope.Name`. -/
def Name (m : MachineScopeM) : Str := m.gcpMachine.name

/-- `MachineScope.Zone`: the machine's failure domain when set;
otherwise the cluster's failure-domain names are collected in map
iteration order, sorted, and the first is taken; empty string when the
cluster has none. -/
def Zone (m : MachineScopeM) : Str :=
  match m.machine.failureDomain with
  | none =>
    if m.clusterGetter.failureDomains = [] then []
    else (List.insertionSort (· ≤ ·) m.clusterGetter.failureDomains).headI
  | some fd => fd

/-- `MachineScope.Role`: control-plane machines get the role
"control-plane", all others "node". -/
def Role (m : MachineScopeM) : Str :=
  if m.machine.isControlPlane then gs "control-plane" else gs "node"

/-- `MachineScope.subnetHasSlashes`: true when the subnet is set and
contains a `/`. -/
def subnetHasSlashes (m : MachineScopeM) : Bool :=
  match m.gcpMachine.spec.subnet with
  | none => false
  | some s => if containsSub (gs "/") s then true else false

/-- `MachineScope.getProjectFromSubnet`: the project name when the
subnet path starts with `projects/<non-empty>`; `none` otherwise. -/
def getProjectFromSubnet (m : MachineScopeM) : Option Str :=
  match m.gcpMachine.spec.subnet with
  | none => none
  | some s =>
    if subnetHasSlashes m then
      let subnetSlice := splitChar '/' s
      if subnetSlice.length ≥ 2 ∧ subnetSlice.headI = gs "projects" ∧
          (subnetSlice.tail.headI).length > 0 then
        some subnetSlice.tail.headI
      else none
    else none

/-- `MachineScope.getNetworkInterfacePath`: the cluster's own
project/network path, with the project segment replaced by the subnet's
owning project when it differs. -/
def getNetworkInterfacePath (m : MachineScopeM) : Str :=
  let defaultPath := pathJoin [gs "projects", m.clusterGetter.project,
    gs "global", gs "networks", m.clusterGetter.networkName]
  match getProjectFromSubnet m with
  | none => defaultPath
  | some subnetProject =>
    if m.clusterGetter.project ≠ subnetProject then
      pathJoin [gs "projects", subnetProject, gs "global", gs "networks",
        m.clusterGetter.networkName]
    else defaultPath

/-- `MachineScope.getSubnetworkPath`: the synthesized
`regions/<region>/subnetworks/<subnet>` path, or the subnet verbatim
when it carries a `projects/...` project; alias ranges (everything from
the first comma on) are stripped last. The source dereferences the
subnet without a nil check (its callers guard), modelled by `getD`. -/
def getSubnetworkPath (m : MachineScopeM) : Str :=
  let subnet := m.gcpMachine.spec.subnet.getD []
  let defaultPath := pathJoin [gs "regions", m.clusterGetter.region,
    gs "subnetworks", subnet]
  let path1 :=
    match getProjectFromSubnet m with
    | some _ => subnet
    | none => defaultPath
  (splitChar ',' path1).headI

/-- Parse errors of `getInstanceAliasIpRanges` (the three `fmt.Errorf`
cases, each carrying the offending text). -/
inductive AliasParseError where
  | multipleAliasBlocks (s : Str)
  | invalidAliasRange (r : Str)
  | emptyAliasResult (s : Str)
deriving DecidableEq

/-- Loop body of `getInstanceAliasIpRanges` for one `;`-entry, applied
when the entry has at most one colon: no colon gives an empty name and
the whole entry as CIDR; one colon splits into name and CIDR. -/
def aliasEntryToRange (r : Str) : AliasIpRangeM :=
  let aliasRangeSlice := splitChar ':' r
  if aliasRangeSlice.length = 1 then
    { subnetworkRangeName := [], ipCidrRange := aliasRangeSlice.headI }
  else
    { subnetworkRangeName := aliasRangeSlice.headI,
      ipCidrRange := aliasRangeSlice.tail.headI }

/-- Inner loop of `getInstanceAliasIpRanges` over the `;`-separated
alias entries: an entry with more than one colon aborts with
`invalidAliasRange`; otherwise entries are converted in order. -/
def parseAliasEntries : List Str → Except AliasParseError (List AliasIpRangeM)
  | [] => .ok []
  | r :: rest =>
    if (splitChar ':' r).length > 2 then .error (.invalidAliasRange r)
    else
      match parseAliasEntries rest with
      | .error e => .error e
      | .ok l => .ok (aliasEntryToRange r :: l)

/-- Outer loop of `getInstanceAliasIpRanges` over the `,`-separated
pieces of the subnet string: the first piece starting with `aliases=` is
stripped and parsed, and the loop breaks; other pieces are skipped. -/
def scanAliasPieces : List Str → Except AliasParseError (List AliasIpRangeM)
  | [] => .ok []
  | p :: rest =>
    if hasPrefixStr aliasKeyword p then
      parseAliasEntries (splitChar ';' (trimPrefixStr aliasKeyword p))
    else scanAliasPieces rest

/-- `MachineScope.getInstanceAliasIpRanges`. -/
def getInstanceAliasIpRanges (subnet : Option Str) :
    Except AliasParseError (List AliasIpRangeM) :=
  match subnet with
  | none => .ok []
  | some s =>
    if containsSub aliasMarker s = false then .ok []
    else if countSub aliasMarker s > 1 then .error (.multipleAliasBlocks s)
    else
      match scanAliasPieces (splitChar ',' s) with
      | .error e => .error e
      | .ok l => if l = [] then .error (.emptyAliasResult s) else .ok l

/-- Modelled from the spec: `semver.MajorMinor` from `golang.org/x/mod`
(not in src/) — the major.minor truncation of a `v`-prefixed semantic
version string, empty for other strings. -/
def majorMinor (v : Str) : Str :=
  if hasPrefixStr (gs "v") v then strIntercalate (gs ".") ((splitChar '.' v).take 2)
  else []

/-- `MachineScope.InstanceImageSpec`: explicit image wins, else image
family, else the default family path synthesized from the workload
version; the boot disk is always boot + auto-delete. -/
def InstanceImageSpec (m : MachineScopeM) : AttachedDiskM :=
  let version := m.machine.version.getD []
  let image := gs "capi-ubuntu-1804-k8s-" ++
    (majorMinor version).map (fun c => if c = '.' then '-' else c)
  let sourceImage0 := pathJoin [gs "projects", m.clusterGetter.project,
    gs "global", gs "images", gs "family", image]
  let sourceImage :=
    match m.gcpMachine.spec.image with
    | some i => i
    | none =>
      match m.gcpMachine.spec.imageFamily with
      | some f => f
      | none => sourceImage0
  let diskType := m.gcpMachine.spec.rootDeviceType.getD PdStandardDiskType
  { autoDelete := true
    boot := true
    type := []
    interface := []
    initializeParams :=
      { diskSizeGb := m.gcpMachine.spec.rootDeviceSize
        diskType := pathJoin [gs "zones", Zone m, gs "diskTypes", diskType]
        sourceImage := sourceImage } }

/-- Loop body of `MachineScope.InstanceAdditionalDiskSpec` for one
additional disk: size defaults to 30; disks whose resolved type path
ends in the local-SSD type name are forced to SCRATCH/375GB/NVME. -/
def instanceAdditionalDisk (m : MachineScopeM) (disk : AttachedDiskSpecM) :
    AttachedDiskM :=
  let d0 : AttachedDiskM :=
    { autoDelete := true
      boot := false
      type := []
      interface := []
      initializeParams :=
        { diskSizeGb := disk.size.getD 30
          diskType := pathJoin [gs "zones", Zone m, gs "diskTypes", disk.deviceType]
          sourceImage := [] } }
  if hasSuffixStr LocalSsdDiskType d0.initializeParams.diskType then
    { d0 with
      type := gs "SCRATCH"
      interface := gs "NVME"
      initializeParams := { d0.initializeParams with diskSizeGb := 375 } }
  else d0

/-- `MachineScope.InstanceAdditionalDiskSpec`. -/
def InstanceAdditionalDiskSpec (m : MachineScopeM) : List AttachedDiskM :=
  m.gcpMachine.spec.additionalDisks.map (instanceAdditionalDisk m)

/-- `MachineScope.InstanceServiceAccountsSpec`: explicit spec wins, else
the `default` account with the platform scope. -/
def InstanceServiceAccountsSpec (m : MachineScopeM) : ServiceAccountM :=
  match m.gcpMachine.spec.serviceAccount with
  | none => { email := gs "default", scopes := [CloudPlatformScope] }
  | some sa => { email := sa.email, scopes := sa.scopes }

/-- `MachineScope.InstanceAdditionalMetadataSpec`. -/
def InstanceAdditionalMetadataSpec (m : MachineScopeM) : List MetadataItemM :=
  m.gcpMachine.spec.additionalMetadata.map
    (fun it => { key := it.key, value := it.value })

/-- `MachineScope.InstanceNetworkInterfaceSpec`: network path, optional
NAT access config, optional subnetwork path; when the subnet is set and
alias parsing fails the whole interface is dropped (the source returns
nil and swallows the error). -/
def InstanceNetworkInterfaceSpec (m : MachineScopeM) : Option NetworkInterfaceM :=
  let ni0 : NetworkInterfaceM :=
    { network := getNetworkInterfacePath m
      subnetwork := []
      accessConfigs := []
      aliasIpRanges := [] }
  let ni1 :=
    if m.gcpMachine.spec.publicIP = some true then
      { ni0 with accessConfigs :=
        [{ type := gs "ONE_TO_ONE_NAT", name := gs "External NAT" }] }
    else ni0
  match m.gcpMachine.spec.subnet with
  | none => some ni1
  | some _ =>
    let ni2 := { ni1 with subnetwork := getSubnetworkPath m }
    match getInstanceAliasIpRanges m.gcpMachine.spec.subnet with
    | .ok aliasIpRanges => some { ni2 with aliasIpRanges := aliasIpRanges }
    | .error _ => none

/-- Modelled from the spec: `infrav1.Build` (labels builder from the API
types package, not in src/) — the standard label set (cluster-ownership
marker and role) merged with user-supplied additional labels, with
synthesized keys winning. -/
def buildLabels (clusterName role : Str) (additional : List (Str × Str)) :
    List (Str × Str) :=
  let synthesized := [(gs "capg-cluster-" ++ clusterName, gs "owned"),
    (gs "capg-role", role)]
  synthesized ++ additional.filter (fun kv => synthesized.all (fun s => s.1 ≠ kv.1))

/-- Modelled from the spec: `infrav1.Labels.AddLabels` (not in src/) —
merge of the cluster-level additional labels with the machine's, the
machine's entries winning on key collisions. -/
def addLabels (base extra : List (Str × Str)) : List (Str × Str) :=
  base.filter (fun kv => extra.all (fun e => e.1 ≠ kv.1)) ++ extra

/-- The scheduling block as `InstanceSpec` computes it when
`OnHostMaintenance` is set: the explicit per-case switch (unknown values
are logged and leave the field) followed by the unconditional
normalize-and-overwrite assignment. -/
def schedulingPolicyWithSwitch (preempt : Bool) (v : Str) : SchedulingM :=
  let sched0 : SchedulingM := { preemptible := preempt, onHostMaintenance := [] }
  let s1 :=
    if v = HostMaintenancePolicyMigrate then
      { sched0 with onHostMaintenance := gs "MIGRATE" }
    else if v = HostMaintenancePolicyTerminate then
      { sched0 with onHostMaintenance := gs "TERMINATE" }
    else sched0
  { s1 with onHostMaintenance := toUpperStr v }

/-- The scheduling block as the spec's final-assignment-only reading
computes it: just the upper-cased raw value. -/
def schedulingPolicySpecOnly (preempt : Bool) (v : Str) : SchedulingM :=
  { preemptible := preempt, onHostMaintenance := toUpperStr v }

/-- `MachineScope.InstanceSpec`: the full descriptor builder (the
`logr.Logger` argument only feeds the debug log in the unknown
host-maintenance branch and is not modelled). -/
def InstanceSpec (m : MachineScopeM) : InstanceM :=
  let base : InstanceM :=
    { name := Name m
      zone := Zone m
      machineType := pathJoin [gs "zones", Zone m, gs "machineTypes",
        m.gcpMachine.spec.instanceType]
      tags := m.gcpMachine.spec.additionalNetworkTags ++
        [m.clusterGetter.name ++ ['-'] ++ Role m, m.clusterGetter.name]
      labels := buildLabels m.clusterGetter.name (Role m)
        (addLabels m.clusterGetter.additionalLabels m.gcpMachine.spec.additionalLabels)
      scheduling := { preemptible := m.gcpMachine.spec.preemptible, onHostMaintenance := [] }
      canIpForward := true
      shieldedInstanceConfig := none
      confidentialInstanceConfig := none
      disks := []
      metadata := []
      serviceAccounts := []
      networkInterfaces := [] }
  let i1 :=
    if m.gcpMachine.spec.ipForwarding = some IPForwardingDisabled then
      { base with canIpForward := false }
    else base
  let i2 :=
    match m.gcpMachine.spec.shieldedInstanceConfig with
    | none => i1
    | some cfg =>
      let sc0 : ShieldedInstanceConfigM :=
        { enableSecureBoot := false, enableVtpm := true,
          enableIntegrityMonitoring := true }
      let sc1 := if cfg.secureBoot = SecureBootPolicyEnabled then
          { sc0 with enableSecureBoot := true } else sc0
      let sc2 := if cfg.virtualizedTrustedPlatformModule =
          VirtualizedTrustedPlatformModulePolicyDisabled then
          { sc1 with enableVtpm := false } else sc1
      let sc3 := if cfg.integrityMonitoring = IntegrityMonitoringPolicyDisabled then
          { sc2 with enableIntegrityMonitoring := false } else sc2
      { i1 with shieldedInstanceConfig := some sc3 }
  let i3 :=
    match m.gcpMachine.spec.onHostMaintenance with
    | none => i2
    | some v =>
      { i2 with scheduling := schedulingPolicyWithSwitch i2.scheduling.preemptible v }
  let i4 :=
    match m.gcpMachine.spec.confidentialCompute with
    | none => i3
    | some v =>
      let cc : ConfidentialInstanceConfigM :=
        { enableConfidentialCompute := v = ConfidentialComputePolicyEnabled }
      { i3 with confidentialInstanceConfig := some cc }
  let i5 :=
    { i4 with
      disks := [InstanceImageSpec m] ++ InstanceAdditionalDiskSpec m
      metadata := InstanceAdditionalMetadataSpec m
      serviceAccounts := [InstanceServiceAccountsSpec m] }
  match InstanceNetworkInterfaceSpec m with
  | some ni => { i5 with networkInterfaces := [ni] }
  | none => i5

/-! ## Lemmas about the string primitives -/

theorem splitChar_ne_nil (c : Char) (s : Str) : splitChar c s ≠ [] := by
  cases s with
  | nil => simp [splitChar]
  | cons x xs =>
    simp only [splitChar]
    split <;> simp

theorem headI_append_of_ne_nil {a b : Str} (h : a ≠ []) :
    (a ++ b).headI = a.headI := by
  cases a with
  | nil => exact absurd rfl h
  | cons x xs => rfl

theorem headI_mem_of_ne_nil {a : Str} (h : a ≠ []) : a.headI ∈ a := by
  cases a with
  | nil => exact absurd rfl h
  | cons x xs => simp [List.headI]

theorem splitChar_append_sep (c : Char) (a b : Str) :
    splitChar c (a ++ c :: b) = splitChar c a ++ splitChar c b := by
  induction a with
  | nil => simp [splitChar]
  | cons x xs ih =>
    by_cases hx : x = c
    · subst hx
      simp [splitChar, ih]
    · have hne := splitChar_ne_nil c xs
      cases hsp : splitChar c xs with
      | nil => exact absurd hsp hne
      | cons y ys =>
        simp [splitChar, if_neg hx, ih, hsp, List.headI]

theorem splitChar_not_mem {c : Char} {s : Str} (h : c ∉ s) :
    splitChar c s = [s] := by
  induction s with
  | nil => rfl
  | cons x xs ih =>
    have hx : x ≠ c := fun he => h (he ▸ List.mem_cons_self x xs)
    have hxs : c ∉ xs := fun hm => h (List.mem_cons_of_mem x hm)
    simp [splitChar, if_neg hx, ih hxs, List.headI]

theorem splitChar_headI_append {c : Char} {a : Str} (b : Str) (h : c ∉ a) :
    (splitChar c (a ++ b)).headI = a ++ (splitChar c b).headI := by
  induction a with
  | nil => rfl
  | cons x xs ih =>
    have hx : x ≠ c := fun he => h (he ▸ List.mem_cons_self x xs)
    have hxs : c ∉ xs := fun hm => h (List.mem_cons_of_mem x hm)
    simp only [List.cons_append, splitChar, if_neg hx]
    have hne := splitChar_ne_nil c (xs ++ b)
    cases hsp : splitChar c (xs ++ b) with
    | nil => exact absurd hsp hne
    | cons y ys =>
      have := ih hxs
      rw [hsp] at this
      simp only [List.headI] at this ⊢
      simp [this]

theorem containsSub_single_of_not_mem {c : Char} {s : Str} (h : c ∉ s) :
    containsSub [c] s = false := by
  induction s with
  | nil => simp [containsSub, List.isEmpty]
  | cons x xs ih =>
    have hx : c ≠ x := fun he => h (he ▸ List.mem_cons_self x xs)
    have hxs : c ∉ xs := fun hm => h (List.mem_cons_of_mem x hm)
    simp [containsSub, hasPrefixStr, ih hxs, hx]

theorem hasPrefixStr_append_self (p b : Str) : hasPrefixStr p (p ++ b) = true := by
  induction p with
  | nil => rfl
  | cons x xs ih => simp [hasPrefixStr, ih]

theorem trimPrefixStr_append_self (p b : Str) : trimPrefixStr p (p ++ b) = b := by
  simp [trimPrefixStr, hasPrefixStr_append_self, List.drop_left]

theorem countAux_eq_zero_of_not_contains {pat s : Str}
    (h : containsSub pat s = false) : countAux pat 0 s = 0 := by
  induction s with
  | nil => rfl
  | cons x xs ih =>
    simp only [containsSub, Bool.or_eq_false_iff] at h
    simp [countAux, h.1, ih h.2]

theorem containsSub_of_countSub_pos {pat s : Str} (hp : pat ≠ [])
    (h : 0 < countSub pat s) : containsSub pat s = true := by
  by_contra hc
  have hc2 : containsSub pat s = false := by
    cases hcs : containsSub pat s with
    | false => rfl
    | true => exact absurd hcs hc
  have : countSub pat s = 0 := by
    simp [countSub, if_neg hp, countAux_eq_zero_of_not_contains hc2]
  omega

theorem containsSub_of_hasPrefixStr {pat s : Str}
    (h : hasPrefixStr pat s = true) : containsSub pat s = true := by
  cases s with
  | nil =>
    cases pat with
    | nil => simp [containsSub, List.isEmpty]
    | cons p ps => simp [hasPrefixStr] at h
  | cons x xs => simp [containsSub, h]

theorem containsSub_sandwich (pat a b : Str) :
    containsSub pat (a ++ pat ++ b) = true := by
  induction a with
  | nil =>
    simp only [List.nil_append]
    exact containsSub_of_hasPrefixStr (hasPrefixStr_append_self pat b)
  | cons x xs ih =>
    simp only [List.cons_append, containsSub, List.append_assoc] at ih ⊢
    simp [ih]

/-! ## Lemmas about the alias-range parser -/

theorem scanAliasPieces_append_skip {A : List Str} (B : List Str)
    (h : ∀ p ∈ A, hasPrefixStr aliasKeyword p = false) :
    scanAliasPieces (A ++ B) = scanAliasPieces B := by
  induction A with
  | nil => rfl
  | cons p rest ih =>
    have hp := h p (List.mem_cons_self p rest)
    have hrest : ∀ q ∈ rest, hasPrefixStr aliasKeyword q = false :=
      fun q hq => h q (List.mem_cons_of_mem p hq)
    simp [scanAliasPieces, hp, ih hrest]

theorem parseAliasEntries_ok {es : List Str}
    (h : ∀ e ∈ es, (splitChar ':' e).length ≤ 2) :
    parseAliasEntries es = .ok (es.map aliasEntryToRange) := by
  induction es with
  | nil => rfl
  | cons e rest ih =>
    have he := h e (List.mem_cons_self e rest)
    have hrest : ∀ q ∈ rest, (splitChar ':' q).length ≤ 2 :=
      fun q hq => h q (List.mem_cons_of_mem e hq)
    have hnot : ¬ (splitChar ':' e).length > 2 := by omega
    simp [parseAliasEntries, hnot, ih hrest]

theorem parseAliasEntries_err {es : List Str}
    (h : ¬ ∀ e ∈ es, (splitChar ':' e).length ≤ 2) :
    ∃ r, r ∈ es ∧ (splitChar ':' r).length > 2 ∧
      parseAliasEntries es = .error (.invalidAliasRange r) := by
  induction es with
  | nil => exact absurd (by intro e he; cases he) h
  | cons e rest ih =>
    by_cases he : (splitChar ':' e).length > 2
    · exact ⟨e, List.mem_cons_self e rest, he, by simp [parseAliasEntries, he]⟩
    · have hrest : ¬ ∀ q ∈ rest, (splitChar ':' q).length ≤ 2 := by
        intro hall
        exact h (by
          intro q hq
          rcases List.mem_cons.mp hq with hq1 | hq2
          · subst hq1; omega
          · exact hall q hq2)
      obtain ⟨r, hr1, hr2, hr3⟩ := ih hrest
      exact ⟨r, List.mem_cons_of_mem e hr1, hr2, by simp [parseAliasEntries, he, hr3]⟩

/-! ## Lemmas about the path model -/

theorem strIntercalate_ne_nil {x : Str} (r : List Str) (h : x ≠ []) :
    strIntercalate ['/'] (x :: r) ≠ [] := by
  cases x with
  | nil => exact absurd rfl h
  | cons y ys => simp [strIntercalate]

theorem splitChar_strIntercalate {l : List Str} (hne : l ≠ [])
    (h : ∀ x ∈ l, '/' ∉ x) :
    splitChar '/' (strIntercalate ['/'] l) = l := by
  induction l with
  | nil => exact absurd rfl hne
  | cons x rest ih =>
    cases rest with
    | nil =>
      simp only [strIntercalate, sepConcat, List.append_nil]
      exact splitChar_not_mem (h x (List.mem_cons_self x []))
    | cons y rest2 =>
      have hx : '/' ∉ x := h x (List.mem_cons_self x (y :: rest2))
      have hr : ∀ q ∈ y :: rest2, '/' ∉ q :=
        fun q hq => h q (List.mem_cons_of_mem x hq)
      have step : strIntercalate ['/'] (x :: y :: rest2)
          = x ++ '/' :: strIntercalate ['/'] (y :: rest2) := by
        simp [strIntercalate, sepConcat]
      rw [step, splitChar_append_sep, splitChar_not_mem hx, ih (by simp) hr]
      rfl

theorem cleanSegs_all_clean {l : List Str} (h : ∀ x ∈ l, CleanSeg x) :
    ∀ acc, cleanSegs false acc l = acc.reverse ++ l := by
  induction l with
  | nil => intro acc; simp [cleanSegs]
  | cons s rest ih =>
    intro acc
    obtain ⟨h1, h2, h3, _⟩ := h s (List.mem_cons_self s rest)
    have hrest : ∀ x ∈ rest, CleanSeg x := fun x hx => h x (List.mem_cons_of_mem s hx)
    have hc1 : ¬ (s = [] ∨ s = ['.']) := by
      rintro (hh | hh) <;> [exact h1 hh; exact h2 hh]
    simp only [cleanSegs, if_neg hc1, if_neg h3, ih hrest]
    simp

theorem pathClean_strIntercalate {l : List Str} (hne : l ≠ [])
    (h : ∀ x ∈ l, CleanSeg x) :
    pathClean (strIntercalate ['/'] l) = strIntercalate ['/'] l := by
  cases l with
  | nil => exact absurd rfl hne
  | cons x rest =>
    obtain ⟨hx1, _, _, hx4⟩ := h x (List.mem_cons_self x rest)
    have hs_ne : strIntercalate ['/'] (x :: rest) ≠ [] := strIntercalate_ne_nil rest hx1
    have hhead : (strIntercalate ['/'] (x :: rest)).headI = x.headI := by
      simpa [strIntercalate] using headI_append_of_ne_nil (b := sepConcat ['/'] rest) hx1
    have hroot : ¬ ((strIntercalate ['/'] (x :: rest)).headI = '/') := by
      rw [hhead]
      intro hh
      exact hx4 (hh ▸ headI_mem_of_ne_nil hx1)
    have hslash : ∀ q ∈ x :: rest, '/' ∉ q := fun q hq => (h q hq).2.2.2
    have hd : (decide ((strIntercalate ['/'] (x :: rest)).headI = '/')) = false := by
      simp [hroot]
    simp only [pathClean, if_neg hs_ne, hd, if_neg hroot]
    rw [splitChar_strIntercalate (l := x :: rest) (by simp) hslash,
      cleanSegs_all_clean h []]
    simp

theorem pathJoin_of_cleanSegs {l : List Str} (hne : l ≠ [])
    (h : ∀ x ∈ l, CleanSeg x) :
    pathJoin l = strIntercalate ['/'] l := by
  cases l with
  | nil => exact absurd rfl hne
  | cons x rest =>
    have hx1 : x ≠ [] := (h x (List.mem_cons_self x rest)).1
    have hbuf : joinNonEmpty (x :: rest) = strIntercalate ['/'] (x :: rest) := by
      simp [joinNonEmpty, if_neg hx1, strIntercalate]
    have hs_ne : strIntercalate ['/'] (x :: rest) ≠ [] := strIntercalate_ne_nil rest hx1
    simp only [pathJoin, hbuf, if_neg hs_ne]
    exact pathClean_strIntercalate (by simp) h

theorem strIntercalate_four (a b c d : Str) :
    strIntercalate ['/'] [a, b, c, d] = a ++ ['/'] ++ b ++ ['/'] ++ c ++ ['/'] ++ d := by
  simp [strIntercalate, sepConcat, List.append_assoc]

theorem strIntercalate_five (a b c d e : Str) :
    strIntercalate ['/'] [a, b, c, d, e]
      = a ++ ['/'] ++ b ++ ['/'] ++ c ++ ['/'] ++ d ++ ['/'] ++ e := by
  simp [strIntercalate, sepConcat, List.append_assoc]

/-! ## Lemmas about `Zone` -/

theorem insertionSort_eq_of_perm {l1 l2 : List Str} (h : l1.Perm l2) :
    List.insertionSort (· ≤ ·) l1 = List.insertionSort (· ≤ ·) l2 := by
  haveI : IsAntisymm Str (· ≤ ·) := ⟨fun a b h1 h2 => le_antisymm h1 h2⟩
  refine List.eq_of_perm_of_sorted (r := (· ≤ ·)) ?_ ?_ ?_
  · exact ((List.perm_insertionSort _ l1).trans h).trans
      (List.perm_insertionSort _ l2).symm
  · exact List.sorted_insertionSort _ l1
  · exact List.sorted_insertionSort _ l2

theorem Zone_perm (m : MachineScopeM) (fd2 : List Str)
    (h : m.clusterGetter.failureDomains.Perm fd2) :
    Zone m = Zone { m with clusterGetter := { m.clusterGetter with failureDomains := fd2 } } := by
  obtain ⟨⟨proj, reg, net, nm, fds, addl⟩, mach, gm⟩ := m
  simp only at h
  simp only [Zone]
  cases mach.failureDomain with
  | some fd => rfl
  | none =>
    simp only
    have hnil : fds = [] ↔ fd2 = [] := by
      constructor
      · intro hh; subst hh; exact h.nil_eq.symm ▸ rfl
      · intro hh; subst hh; exact h.symm.nil_eq.symm ▸ rfl
    by_cases hf : fds = []
    · rw [if_pos hf, if_pos (hnil.mp hf)]
    · rw [if_neg hf, if_neg (fun hh => hf (hnil.mpr hh)), insertionSort_eq_of_perm h]

/-! ## Claims about the alias-range parser (C4, C5, C6) -/

/-- C5: for every non-nil subnet string in which the marker `,aliases=`
occurs more than once, alias parsing fails with the
multiple-alias-blocks error and returns no alias ranges. -/
theorem c5_multiple_alias_blocks (s : Str)
    (h : countSub aliasMarker s > 1) :
    getInstanceAliasIpRanges (some s) = .error (.multipleAliasBlocks s) := by
  have hc : containsSub aliasMarker s = true :=
    containsSub_of_countSub_pos (by decide) (by omega)
  simp [getInstanceAliasIpRanges, hc, h]

/-- Witness for C5 at the subnet string `x,aliases=a,aliases=b`. -/
theorem c5_witness :
    getInstanceAliasIpRanges (some (gs "x,aliases=a,aliases=b"))
      = .error (.multipleAliasBlocks (gs "x,aliases=a,aliases=b")) :=
  c5_multiple_alias_blocks (gs "x,aliases=a,aliases=b") (by decide)

/-- C6: for every non-nil subnet string containing the alias marker,
alias parsing never succeeds with an empty list of ranges. -/
theorem c6_no_empty_success (s : Str) (l : List AliasIpRangeM)
    (hm : containsSub aliasMarker s = true)
    (hok : getInstanceAliasIpRanges (some s) = .ok l) : l ≠ [] := by
  simp only [getInstanceAliasIpRanges, hm] at hok
  by_cases hcnt : countSub aliasMarker s > 1
  · simp [hcnt] at hok
  · simp only [if_neg hcnt] at hok
    cases hscan : scanAliasPieces (splitChar ',' s) with
    | error e => rw [hscan] at hok; simp at hok
    | ok l2 =>
      rw [hscan] at hok
      by_cases hl2 : l2 = []
      · simp [hl2] at hok
      · simp only [if_neg hl2] at hok
        cases hok
        exact hl2

/-- Witness for C6 at the subnet string `a,aliases=b`. -/
theorem c6_witness :
    ([{ subnetworkRangeName := [], ipCidrRange := gs "b" }] : List AliasIpRangeM) ≠ [] :=
  c6_no_empty_success (gs "a,aliases=b") _ (by decide) (by rfl)

/-- C4 counterexample: `sub,aliases=a,b` has exactly one alias marker
and its alias block `a,b` splits on `;` into the single colon-free
entry `a,b`, so the claim predicts the CIDR `a,b`; the code truncates
the block at the next comma and yields the CIDR `a`. -/
theorem c4_counterexample :
    getInstanceAliasIpRanges (some (gs "sub,aliases=a,b"))
        = .ok [{ subnetworkRangeName := [], ipCidrRange := gs "a" }]
      ∧ countSub aliasMarker (gs "sub,aliases=a,b") = 1
      ∧ (splitChar ';' (gs "a,b")).map aliasEntryToRange
        = [{ subnetworkRangeName := [], ipCidrRange := gs "a,b" }]
      ∧ [({ subnetworkRangeName := [], ipCidrRange := gs "a" } : AliasIpRangeM)]
        ≠ [{ subnetworkRangeName := [], ipCidrRange := gs "a,b" }] :=
  ⟨by rfl, by decide, by rfl, by decide⟩

/-- C4 (amended): for every subnet string of the form
`pre ++ ",aliases=" ++ block` with exactly one alias marker, where no
comma-piece of `pre` begins with `aliases=` and `block` contains no
further comma (text from a later comma on is silently ignored by the
code): if every `;`-entry of `block` has at most one colon, parsing
succeeds with exactly those entries in order (colon-free entry gives an
empty name and the whole entry as CIDR, one-colon entry gives
name/CIDR); if some entry has two or more colons, parsing fails with the
invalid-alias-range error naming such an entry. -/
theorem c4_amended (pre block : Str)
    (hpre : ∀ p ∈ splitChar ',' pre, hasPrefixStr aliasKeyword p = false)
    (hblock : ',' ∉ block)
    (hcount : countSub aliasMarker (pre ++ aliasMarker ++ block) = 1) :
    ((∀ e ∈ splitChar ';' block, (splitChar ':' e).length ≤ 2) →
      getInstanceAliasIpRanges (some (pre ++ aliasMarker ++ block))
        = .ok ((splitChar ';' block).map aliasEntryToRange))
    ∧ ((¬ ∀ e ∈ splitChar ';' block, (splitChar ':' e).length ≤ 2) →
      ∃ r, r ∈ splitChar ';' block ∧ (splitChar ':' r).length > 2 ∧
        getInstanceAliasIpRanges (some (pre ++ aliasMarker ++ block))
          = .error (.invalidAliasRange r)) := by
  have hga : getInstanceAliasIpRanges (some (pre ++ aliasMarker ++ block)) =
      match parseAliasEntries (splitChar ';' block) with
      | .error e => .error e
      | .ok l =>
        if l = [] then .error (.emptyAliasResult (pre ++ aliasMarker ++ block))
        else .ok l := by
    have hc : containsSub aliasMarker (pre ++ aliasMarker ++ block) = true :=
      containsSub_sandwich aliasMarker pre block
    have hngt : ¬ (countSub aliasMarker (pre ++ aliasMarker ++ block) > 1) := by omega
    have hmarker : pre ++ aliasMarker ++ block = pre ++ ',' :: (aliasKeyword ++ block) := by
      have h1 : aliasMarker = ',' :: aliasKeyword := by decide
      rw [h1]
      simp [List.append_assoc]
    have hnc : ',' ∉ aliasKeyword ++ block := by
      intro hmem
      rcases List.mem_append.mp hmem with h1 | h2
      · revert h1; decide
      · exact hblock h2
    have hsplit : splitChar ',' (pre ++ aliasMarker ++ block)
        = splitChar ',' pre ++ [aliasKeyword ++ block] := by
      rw [hmarker, splitChar_append_sep, splitChar_not_mem hnc]
    simp only [getInstanceAliasIpRanges, hc, hngt, if_neg hngt]
    rw [hsplit, scanAliasPieces_append_skip _ hpre]
    simp [scanAliasPieces, hasPrefixStr_append_self, trimPrefixStr_append_self]
  constructor
  · intro hgood
    rw [hga, parseAliasEntries_ok hgood]
    have hne : (splitChar ';' block).map aliasEntryToRange ≠ [] := by
      have h0 := splitChar_ne_nil ';' block
      simpa using h0
    simp [hne]
  · intro hbad
    obtain ⟨r, hr1, hr2, hr3⟩ := parseAliasEntries_err hbad
    exact ⟨r, hr1, hr2, by rw [hga, hr3]⟩

/-- Witness for C4 (amended) at
`sub,aliases=10.0.0.0/24;r:10.1.0.0/24`. -/
theorem c4_witness :
    getInstanceAliasIpRanges
        (some (gs "sub" ++ aliasMarker ++ gs "10.0.0.0/24;r:10.1.0.0/24"))
      = .ok ((splitChar ';' (gs "10.0.0.0/24;r:10.1.0.0/24")).map aliasEntryToRange) :=
  (c4_amended (gs "sub") (gs "10.0.0.0/24;r:10.1.0.0/24")
    (by decide) (by decide) (by decide)).1 (by decide)

/-! ## Projections of `InstanceSpec` -/

theorem InstanceSpec_fields (m : MachineScopeM) :
    (InstanceSpec m).name = Name m
    ∧ (InstanceSpec m).zone = Zone m
    ∧ (InstanceSpec m).machineType
      = pathJoin [gs "zones", Zone m, gs "machineTypes", m.gcpMachine.spec.instanceType]
    ∧ (InstanceSpec m).scheduling
      = (match m.gcpMachine.spec.onHostMaintenance with
        | none => { preemptible := m.gcpMachine.spec.preemptible, onHostMaintenance := [] }
        | some v => schedulingPolicyWithSwitch m.gcpMachine.spec.preemptible v)
    ∧ (InstanceSpec m).disks = [InstanceImageSpec m] ++ InstanceAdditionalDiskSpec m
    ∧ (InstanceSpec m).networkInterfaces
      = (match InstanceNetworkInterfaceSpec m with
        | some ni => [ni]
        | none => []) := by
  unfold InstanceSpec
  by_cases hipf : m.gcpMachine.spec.ipForwarding = some IPForwardingDisabled <;>
  cases hsh : m.gcpMachine.spec.shieldedInstanceConfig <;>
  cases hoh : m.gcpMachine.spec.onHostMaintenance <;>
  cases hcc : m.gcpMachine.spec.confidentialCompute <;>
  cases hni : InstanceNetworkInterfaceSpec m <;>
  simp [hipf, hsh, hoh, hcc, hni, schedulingPolicyWithSwitch]

/-! ## Claim C1: failed alias parsing and the produced descriptor -/

/-- Concrete scope for C1: subnet `sub,aliases=a:b:c`, whose alias entry
has two colons and therefore fails to parse. -/
def mC1 : MachineScopeM :=
  { clusterGetter :=
      { project := gs "proj", region := gs "r1", networkName := gs "net1",
        name := gs "clu", failureDomains := [gs "za"], additionalLabels := [] }
    machine := { failureDomain := none, version := none, isControlPlane := false }
    gcpMachine :=
      { name := gs "m1"
        spec :=
          { instanceType := gs "n1", subnet := some (gs "sub,aliases=a:b:c"),
            image := none, imageFamily := none, rootDeviceType := none,
            rootDeviceSize := 0, additionalDisks := [], publicIP := none,
            ipForwarding := none, onHostMaintenance := none,
            shieldedInstanceConfig := none, confidentialCompute := none,
            serviceAccount := none, additionalLabels := [],
            additionalMetadata := [], additionalNetworkTags := [],
            preemptible := false } } }

/-- C1 counterexample: with subnet `sub,aliases=a:b:c` alias parsing
fails, yet `InstanceSpec` still produces a descriptor — fully populated
(name, zone) but with no network interface — instead of aborting. -/
theorem c1_counterexample :
    getInstanceAliasIpRanges mC1.gcpMachine.spec.subnet
        = .error (.invalidAliasRange (gs "a:b:c"))
      ∧ (InstanceSpec mC1).networkInterfaces = []
      ∧ (InstanceSpec mC1).name = gs "m1"
      ∧ (InstanceSpec mC1).zone = gs "za" :=
  ⟨by rfl, by decide, by decide, by decide⟩

/-- C1 (amended): a subnet parse failure does not abort the build; the
descriptor is still produced and merely lacks the network interface
(the error is swallowed by the nil-interface path). -/
theorem c1_amended (m : MachineScopeM) (e : AliasParseError)
    (h : getInstanceAliasIpRanges m.gcpMachine.spec.subnet = .error e) :
    (InstanceSpec m).networkInterfaces = [] := by
  have hni : InstanceNetworkInterfaceSpec m = none := by
    unfold InstanceNetworkInterfaceSpec
    cases hs : m.gcpMachine.spec.subnet with
    | none => rw [hs] at h; simp [getInstanceAliasIpRanges] at h
    | some s =>
      rw [hs] at h
      simp [hs, h]
  rw [(InstanceSpec_fields m).2.2.2.2.2, hni]

/-- Witness for C1 (amended) at the concrete scope of the
counterexample. -/
theorem c1_witness : (InstanceSpec mC1).networkInterfaces = [] :=
  c1_amended mC1 (.invalidAliasRange (gs "a:b:c")) (by rfl)

/-! ## Claim C3: host-maintenance normalization -/

/-- C3: when the host-maintenance policy is set, the scheduling block's
`OnHostMaintenance` is the upper-cased raw value — the final
normalize-and-overwrite assignment supersedes the per-case switch, so
the switch version and the final-assignment-only version agree. -/
theorem c3_on_host_maintenance (m : MachineScopeM) (v : Str)
    (h : m.gcpMachine.spec.onHostMaintenance = some v) :
    (InstanceSpec m).scheduling.onHostMaintenance = toUpperStr v
    ∧ ∀ p w, schedulingPolicyWithSwitch p w = schedulingPolicySpecOnly p w := by
  have hws : ∀ p w, schedulingPolicyWithSwitch p w = schedulingPolicySpecOnly p w := by
    intro p w
    unfold schedulingPolicyWithSwitch schedulingPolicySpecOnly
    split_ifs <;> rfl
  refine ⟨?_, hws⟩
  rw [(InstanceSpec_fields m).2.2.2.1, h]
  show (schedulingPolicyWithSwitch m.gcpMachine.spec.preemptible v).onHostMaintenance
    = toUpperStr v
  rw [hws]
  rfl

/-- Concrete machine spec for C3: host-maintenance policy `Terminate`. -/
def specC3 : GCPMachineSpecM :=
  { mC1.gcpMachine.spec with subnet := none, onHostMaintenance := some (gs "Terminate") }

/-- Concrete scope for C3. -/
def mC3 : MachineScopeM :=
  { mC1 with gcpMachine := { name := gs "m1", spec := specC3 } }

/-- Witness for C3: the built descriptor carries `TERMINATE`. -/
theorem c3_witness : (InstanceSpec mC3).scheduling.onHostMaintenance = gs "TERMINATE" := by
  rw [(c3_on_host_maintenance mC3 (gs "Terminate") (by decide)).1]
  decide

/-! ## Claim C8: additional-disk building -/

/-- C8: each additional disk whose resolved type path ends in the
local-SSD type name is built as SCRATCH/375GB/NVME regardless of the
requested size; any other disk keeps its requested size (default 30)
with the default category and interface; the disk list is the in-order
image of the per-disk builder. -/
theorem c8_additional_disks (m : MachineScopeM) (disk : AttachedDiskSpecM) :
    (hasSuffixStr LocalSsdDiskType
        (pathJoin [gs "zones", Zone m, gs "diskTypes", disk.deviceType]) = true →
      instanceAdditionalDisk m disk
        = { autoDelete := true, boot := false, type := gs "SCRATCH",
            interface := gs "NVME",
            initializeParams :=
              { diskSizeGb := 375,
                diskType := pathJoin [gs "zones", Zone m, gs "diskTypes", disk.deviceType],
                sourceImage := [] } })
    ∧ (hasSuffixStr LocalSsdDiskType
        (pathJoin [gs "zones", Zone m, gs "diskTypes", disk.deviceType]) = false →
      instanceAdditionalDisk m disk
        = { autoDelete := true, boot := false, type := [], interface := [],
            initializeParams :=
              { diskSizeGb := disk.size.getD 30,
                diskType := pathJoin [gs "zones", Zone m, gs "diskTypes", disk.deviceType],
                sourceImage := [] } })
    ∧ InstanceAdditionalDiskSpec m
      = m.gcpMachine.spec.additionalDisks.map (instanceAdditionalDisk m) :=
  ⟨fun h => by simp [instanceAdditionalDisk, h],
   fun h => by simp [instanceAdditionalDisk, h],
   rfl⟩

/-- Witness for C8: a local-SSD disk with requested size 100 is built
with size 375, SCRATCH and NVME. -/
theorem c8_witness :
    instanceAdditionalDisk mC1 { deviceType := gs "local-ssd", size := some 100 }
      = { autoDelete := true, boot := false, type := gs "SCRATCH",
          interface := gs "NVME",
          initializeParams :=
            { diskSizeGb := 375, diskType := gs "zones/za/diskTypes/local-ssd",
              sourceImage := [] } } := by
  rw [(c8_additional_disks mC1 { deviceType := gs "local-ssd", size := some 100 }).1
    (by decide)]
  decide

/-! ## Claim C2: the subnetwork path -/

/-- Concrete scope for C2: region `r1`, subnet
`regions/r0/subnetworks/foo` (contains `/` but no `projects/` project). -/
def mC2 : MachineScopeM :=
  { mC1 with gcpMachine :=
      { name := gs "m1"
        spec := { mC1.gcpMachine.spec with subnet := some (gs "regions/r0/subnetworks/foo") } } }

/-- C2 counterexample: the subnet `regions/r0/subnetworks/foo` contains
a `/`, so the claim predicts it is used verbatim; the code only uses it
verbatim when it starts with `projects/<project>`, and here instead
synthesizes `regions/r1/subnetworks/<whole subnet>`. -/
theorem c2_counterexample :
    mC2.gcpMachine.spec.subnet = some (gs "regions/r0/subnetworks/foo")
      ∧ getSubnetworkPath mC2 ≠ gs "regions/r0/subnetworks/foo"
      ∧ getSubnetworkPath mC2 = gs "regions/r1/subnetworks/regions/r0/subnetworks/foo" :=
  ⟨by decide, by decide, by decide⟩

/-- C2 (amended): the subnet string is used verbatim (with everything
from the first comma on stripped) exactly when the code extracts an
owning project from it, i.e. when it starts with
`projects/<non-empty>`; otherwise — in particular for every slash-free
subnet — the path is synthesized as
`regions/<cluster-region>/subnetworks/<alias-stripped subnet>` (stated
for well-formed region and subnet strings, i.e. non-empty, slash- and
dot-segment-free, with a comma-free region). -/
theorem c2_amended (m : MachineScopeM) (s : Str)
    (hs : m.gcpMachine.spec.subnet = some s) :
    (∀ p, getProjectFromSubnet m = some p →
      getSubnetworkPath m = (splitChar ',' s).headI)
    ∧ (getProjectFromSubnet m = none → CleanSeg s →
        CleanSeg m.clusterGetter.region → ',' ∉ m.clusterGetter.region →
        getSubnetworkPath m
          = gs "regions/" ++ m.clusterGetter.region ++ gs "/subnetworks/"
            ++ (splitChar ',' s).headI) := by
  constructor
  · intro p hp
    simp [getSubnetworkPath, hs, hp]
  · intro hp hcs hcr hcomma
    have hall : ∀ x ∈ [gs "regions", m.clusterGetter.region, gs "subnetworks", s],
        CleanSeg x := by
      intro x hx
      rcases List.mem_cons.mp hx with h1 | hx
      · subst h1; decide
      rcases List.mem_cons.mp hx with h1 | hx
      · subst h1; exact hcr
      rcases List.mem_cons.mp hx with h1 | hx
      · subst h1; decide
      rcases List.mem_cons.mp hx with h1 | hx
      · subst h1; exact hcs
      · cases hx
    have hjoin : pathJoin [gs "regions", m.clusterGetter.region, gs "subnetworks", s]
        = gs "regions" ++ ['/'] ++ m.clusterGetter.region ++ ['/']
          ++ gs "subnetworks" ++ ['/'] ++ s := by
      rw [pathJoin_of_cleanSegs (by simp) hall, strIntercalate_four]
    have hA : ',' ∉ gs "regions" ++ ['/'] ++ m.clusterGetter.region ++ ['/']
        ++ gs "subnetworks" ++ ['/'] := by
      intro hmem
      simp only [List.mem_append] at hmem
      rcases hmem with ((((h1 | h1) | h1) | h1) | h1) | h1
      · revert h1; decide
      · revert h1; decide
      · exact hcomma h1
      · revert h1; decide
      · revert h1; decide
      · revert h1; decide
    have hsplith := splitChar_headI_append (c := ',')
      (a := gs "regions" ++ ['/'] ++ m.clusterGetter.region ++ ['/']
        ++ gs "subnetworks" ++ ['/']) s hA
    have e1 : gs "regions/" = gs "regions" ++ ['/'] := by decide
    have e2 : gs "/subnetworks/" = ['/'] ++ gs "subnetworks" ++ ['/'] := by decide
    simp only [getSubnetworkPath, hs, hp, Option.getD_some]
    rw [hjoin, hsplith, e1, e2]
    simp [List.append_assoc]

/-- Concrete scope for the C2 witness: region `us-central1`, bare subnet
`my-subnet,aliases=x`. -/
def mC2w : MachineScopeM :=
  { mC1 with
    clusterGetter := { mC1.clusterGetter with region := gs "us-central1" }
    gcpMachine :=
      { name := gs "m1"
        spec := { mC1.gcpMachine.spec with subnet := some (gs "my-subnet,aliases=x") } } }

/-- Witness for C2 (amended): the bare subnet yields the synthesized
region path with the alias block stripped. -/
theorem c2_witness :
    getSubnetworkPath mC2w = gs "regions/us-central1/subnetworks/my-subnet" := by
  rw [(c2_amended mC2w (gs "my-subnet,aliases=x") (by decide)).2
    (by decide) (by decide) (by decide) (by decide)]
  decide

/-! ## Claim C7: the network path -/

theorem networkPath_form (proj net : Str) (hproj : CleanSeg proj) (hnet : CleanSeg net) :
    pathJoin [gs "projects", proj, gs "global", gs "networks", net]
      = gs "projects/" ++ proj ++ gs "/global/networks/" ++ net := by
  have hall : ∀ x ∈ [gs "projects", proj, gs "global", gs "networks", net],
      CleanSeg x := by
    intro x hx
    rcases List.mem_cons.mp hx with h1 | hx
    · subst h1; decide
    rcases List.mem_cons.mp hx with h1 | hx
    · subst h1; exact hproj
    rcases List.mem_cons.mp hx with h1 | hx
    · subst h1; decide
    rcases List.mem_cons.mp hx with h1 | hx
    · subst h1; decide
    rcases List.mem_cons.mp hx with h1 | hx
    · subst h1; exact hnet
    · cases hx
  rw [pathJoin_of_cleanSegs (by simp) hall, strIntercalate_five]
  have e1 : gs "projects/" = gs "projects" ++ ['/'] := by decide
  have e2 : gs "/global/networks/" = ['/'] ++ gs "global" ++ ['/'] ++ gs "networks" ++ ['/'] := by
    decide
  rw [e1, e2]
  simp [List.append_assoc]

/-- C7: the network path is `projects/<cluster-project>/global/networks/
<cluster-network>`; only when the subnet carries an owning project that
differs from the cluster's is the project segment replaced by that
owning project, the network name staying the cluster's (stated for
well-formed project/network names). -/
theorem c7_network_path (m : MachineScopeM)
    (hproj : CleanSeg m.clusterGetter.project)
    (hnet : CleanSeg m.clusterGetter.networkName) :
    (getProjectFromSubnet m = none →
      getNetworkInterfacePath m
        = gs "projects/" ++ m.clusterGetter.project ++ gs "/global/networks/"
          ++ m.clusterGetter.networkName)
    ∧ (getProjectFromSubnet m = some m.clusterGetter.project →
      getNetworkInterfacePath m
        = gs "projects/" ++ m.clusterGetter.project ++ gs "/global/networks/"
          ++ m.clusterGetter.networkName)
    ∧ (∀ p, getProjectFromSubnet m = some p → p ≠ m.clusterGetter.project →
        CleanSeg p →
        getNetworkInterfacePath m
          = gs "projects/" ++ p ++ gs "/global/networks/"
            ++ m.clusterGetter.networkName) := by
  refine ⟨?_, ?_, ?_⟩
  · intro hp
    simp only [getNetworkInterfacePath, hp]
    exact networkPath_form _ _ hproj hnet
  · intro hp
    simp only [getNetworkInterfacePath, hp]
    rw [if_neg (by simp)]
    exact networkPath_form _ _ hproj hnet
  · intro p hp hne hcp
    simp only [getNetworkInterfacePath, hp]
    rw [if_pos (fun hh => hne hh.symm)]
    exact networkPath_form _ _ hcp hnet

/-- Concrete scope for the C7 witness: cluster project `workload-proj`,
shared-VPC subnet owned by `host-proj`. -/
def mC7 : MachineScopeM :=
  { mC1 with
    clusterGetter := { mC1.clusterGetter with project := gs "workload-proj" }
    gcpMachine :=
      { name := gs "m1"
        spec := { mC1.gcpMachine.spec with
          subnet := some (gs "projects/host-proj/regions/us-central1/subnetworks/my-subnet") } } }

/-- Witness for C7: the shared-VPC host project replaces the project
segment of the network path. -/
theorem c7_witness :
    getNetworkInterfacePath mC7 = gs "projects/host-proj/global/networks/net1" := by
  rw [(c7_network_path mC7 (by decide) (by decide)).2.2 (gs "host-proj")
    (by decide) (by decide) (by decide)]
  decide

/-! ## Claim C9: determinism of the full build -/

/-- C9: the descriptor build is deterministic: it does not depend on
the iteration order in which the failure-domain map hands out its keys
(the only order-sensitive input; everything else is a pure function of
the spec and context, so two calls with identical inputs are equal by
construction). -/
theorem c9_deterministic (m : MachineScopeM) (fd2 : List Str)
    (h : m.clusterGetter.failureDomains.Perm fd2) :
    InstanceSpec m
      = InstanceSpec
          { m with clusterGetter := { m.clusterGetter with failureDomains := fd2 } } := by
  obtain ⟨⟨proj, reg, net, nm, fds, addl⟩, mach, gm⟩ := m
  simp only at h
  have hz : Zone ⟨⟨proj, reg, net, nm, fds, addl⟩, mach, gm⟩
      = Zone ⟨⟨proj, reg, net, nm, fd2, addl⟩, mach, gm⟩ :=
    Zone_perm ⟨⟨proj, reg, net, nm, fds, addl⟩, mach, gm⟩ fd2 h
  have hImg : InstanceImageSpec ⟨⟨proj, reg, net, nm, fds, addl⟩, mach, gm⟩
      = InstanceImageSpec ⟨⟨proj, reg, net, nm, fd2, addl⟩, mach, gm⟩ := by
    simp only [InstanceImageSpec]
    rw [hz]
  have hDiskFn : instanceAdditionalDisk ⟨⟨proj, reg, net, nm, fds, addl⟩, mach, gm⟩
      = instanceAdditionalDisk ⟨⟨proj, reg, net, nm, fd2, addl⟩, mach, gm⟩ := by
    funext d
    simp only [instanceAdditionalDisk]
    rw [hz]
  have hDisk : InstanceAdditionalDiskSpec ⟨⟨proj, reg, net, nm, fds, addl⟩, mach, gm⟩
      = InstanceAdditionalDiskSpec ⟨⟨proj, reg, net, nm, fd2, addl⟩, mach, gm⟩ := by
    simp only [InstanceAdditionalDiskSpec]
    rw [hDiskFn]
  have hNi : InstanceNetworkInterfaceSpec ⟨⟨proj, reg, net, nm, fds, addl⟩, mach, gm⟩
      = InstanceNetworkInterfaceSpec ⟨⟨proj, reg, net, nm, fd2, addl⟩, mach, gm⟩ := by
    simp only [InstanceNetworkInterfaceSpec, getNetworkInterfacePath,
      getSubnetworkPath, getProjectFromSubnet, subnetHasSlashes]
  have hSa : InstanceServiceAccountsSpec ⟨⟨proj, reg, net, nm, fds, addl⟩, mach, gm⟩
      = InstanceServiceAccountsSpec ⟨⟨proj, reg, net, nm, fd2, addl⟩, mach, gm⟩ := by
    simp only [InstanceServiceAccountsSpec]
  have hMeta : InstanceAdditionalMetadataSpec ⟨⟨proj, reg, net, nm, fds, addl⟩, mach, gm⟩
      = InstanceAdditionalMetadataSpec ⟨⟨proj, reg, net, nm, fd2, addl⟩, mach, gm⟩ := by
    simp only [InstanceAdditionalMetadataSpec]
  have hNm : Name ⟨⟨proj, reg, net, nm, fds, addl⟩, mach, gm⟩
      = Name ⟨⟨proj, reg, net, nm, fd2, addl⟩, mach, gm⟩ := by
    simp only [Name]
  have hRole : Role ⟨⟨proj, reg, net, nm, fds, addl⟩, mach, gm⟩
      = Role ⟨⟨proj, reg, net, nm, fd2, addl⟩, mach, gm⟩ := by
    simp only [Role]
  show InstanceSpec ⟨⟨proj, reg, net, nm, fds, addl⟩, mach, gm⟩
      = InstanceSpec ⟨⟨proj, reg, net, nm, fd2, addl⟩, mach, gm⟩
  simp only [InstanceSpec]
  simp only [hz, hImg, hDisk, hNi, hSa, hMeta, hNm, hRole]

/-- Concrete scope for the C9 witness with failure domains listed as
`[zb, za]`. -/
def mC9 : MachineScopeM :=
  { mC1 with clusterGetter :=
    { mC1.clusterGetter with failureDomains := [gs "zb", gs "za"] } }

/-- Witness for C9: the two iteration orders of the same failure-domain
set produce equal descriptors. -/
theorem c9_witness :
    InstanceSpec mC9
      = InstanceSpec
          { mC9 with clusterGetter := { mC9.clusterGetter with failureDomains := [gs "za", gs "zb"] } } :=
  c9_deterministic mC9 [gs "za", gs "zb"] (by decide)

/-! ## Claim C10: zone selection -/

/-- C10: with no explicit failure domain the zone used throughout the
descriptor (instance zone, machine-type path, boot-disk type path) is
the lexicographically smallest failure-domain name, or the empty string
when the cluster has none; an explicit failure domain is used
unchanged. -/
theorem c10_zone_selection (m : MachineScopeM) :
    (∀ f, m.machine.failureDomain = some f → Zone m = f)
    ∧ (m.machine.failureDomain = none → m.clusterGetter.failureDomains = [] →
        Zone m = [])
    ∧ (m.machine.failureDomain = none → m.clusterGetter.failureDomains ≠ [] →
        Zone m ∈ m.clusterGetter.failureDomains
        ∧ ∀ x ∈ m.clusterGetter.failureDomains, Zone m ≤ x)
    ∧ (InstanceSpec m).zone = Zone m
    ∧ (InstanceSpec m).machineType
      = pathJoin [gs "zones", Zone m, gs "machineTypes", m.gcpMachine.spec.instanceType]
    ∧ (InstanceImageSpec m).initializeParams.diskType
      = pathJoin [gs "zones", Zone m, gs "diskTypes",
          m.gcpMachine.spec.rootDeviceType.getD PdStandardDiskType] := by
  refine ⟨?_, ?_, ?_, (InstanceSpec_fields m).2.1, (InstanceSpec_fields m).2.2.1, rfl⟩
  · intro f hf
    simp [Zone, hf]
  · intro h1 h2
    simp [Zone, h1, h2]
  · intro h1 h2
    have hperm := List.perm_insertionSort (· ≤ ·) m.clusterGetter.failureDomains
    have hsorted := List.sorted_insertionSort (· ≤ ·) m.clusterGetter.failureDomains
    have hzeq : Zone m = (List.insertionSort (· ≤ ·) m.clusterGetter.failureDomains).headI := by
      simp [Zone, h1, h2]
    cases hsort : List.insertionSort (· ≤ ·) m.clusterGetter.failureDomains with
    | nil =>
      rw [hsort] at hperm
      exact absurd hperm.symm.eq_nil h2
    | cons y t =>
      rw [hsort] at hperm hsorted
      have hy : Zone m = y := by rw [hzeq, hsort]; rfl
      constructor
      · rw [hy]
        exact hperm.mem_iff.mp (List.mem_cons_self y t)
      · intro x hx
        rw [hy]
        have hx2 : x ∈ y :: t := hperm.symm.mem_iff.mp hx
        rcases List.mem_cons.mp hx2 with h3 | h3
        · exact le_of_eq h3.symm
        · exact (List.sorted_cons.mp hsorted).1 x h3

/-- Concrete scope for the C10 witness with failure domains
`[zc, za, zb]`. -/
def mC10 : MachineScopeM :=
  { mC1 with clusterGetter :=
    { mC1.clusterGetter with failureDomains := [gs "zc", gs "za", gs "zb"] } }

/-- Witness for C10: the selected zone is one of the cluster's failure
domains. -/
theorem c10_witness : Zone mC10 ∈ mC10.clusterGetter.failureDomains :=
  ((c10_zone_selection mC10).2.2.1 (by decide) (by decide)).1
